import Mathlib

/-!
Shallow embedding of the arbitrage spread-detection and alert-gating core
(`arbitrage_analyzer.py` and `data_models.py`): price samples, the per-symbol
spread analysis, the validation rules, and the notification cooldown gate.

Modelling conventions:
* Python floats become rationals (`ℚ`); all arithmetic in the core is exact.
* `datetime` values become integer seconds (`ℤ`); `timedelta.seconds` is the
  day-modulo component `Int.emod (now - t) 86400`, exactly as Python computes
  it after normalisation.
* Python exceptions (the only reachable one is the `ZeroDivisionError` in the
  spread computation when the minimum price is `0`) become `Option`: `none` is
  a propagated exception, `some` a normal return.
* Python's `list.sort` (Timsort) is stable; it is modelled by Mathlib's
  `List.insertionSort`, which is stable in the same direction.
* The `dict` cooldown table becomes an association list with `lookupKey` /
  `setKey` mirroring `dict.get` / item assignment.
-/

namespace ArbAnalyzer

/-- `PriceData` from `data_models.py`. -/
structure PriceData where
  symbol : String
  exchange : String
  price : ℚ
  bid : ℚ
  ask : ℚ
  volume_24h : ℚ
  timestamp : ℤ
deriving DecidableEq, Repr

/-- `ArbitrageOpportunity` from `data_models.py`. -/
structure ArbitrageOpportunity where
  symbol : String
  buy_exchange : String
  sell_exchange : String
  buy_price : ℚ
  sell_price : ℚ
  price_difference_percent : ℚ
  min_volume_24h : ℚ
  timestamp : ℤ
deriving DecidableEq, Repr

/-- The configuration fields consumed by the analyzer (`simple_config.py`). -/
structure Config where
  PRICE_DIFFERENCE_THRESHOLD : ℚ
  MIN_VOLUME_USD : ℚ
  MAX_ALERTS_PER_CYCLE : ℕ
  ALERT_COOLDOWN_MINUTES : ℤ
deriving DecidableEq, Repr

/-- The `session_stats` dictionary of `ArbitrageAnalyzer.__init__`. -/
structure SessionStats where
  cycles_completed : ℕ
  total_opportunities_found : ℕ
  alerts_sent : ℕ
  start_time : ℤ
deriving DecidableEq, Repr

/-- The mutable state of an `ArbitrageAnalyzer`: its session statistics and the
`NotificationManager.last_notifications` cooldown table. -/
structure AnalyzerState where
  session_stats : SessionStats
  last_notifications : List (String × ℤ)
deriving DecidableEq, Repr

/-- The key `sort(key=lambda x: x.price)` orders by. -/
def priceLe (a b : PriceData) : Prop := a.price ≤ b.price

instance : DecidableRel priceLe := fun a b =>
  inferInstanceAs (Decidable (a.price ≤ b.price))

instance : IsTotal PriceData priceLe := ⟨fun a b => le_total a.price b.price⟩

instance : IsTrans PriceData priceLe := ⟨fun _ _ _ h1 h2 => le_trans h1 h2⟩

/-- `valid_prices.sort(key=lambda x: x.price)`: stable ascending sort. -/
def sortByPrice (l : List PriceData) : List PriceData := l.insertionSort priceLe

/-- The key `opportunities.sort(key=..., reverse=True)` orders by (descending
`price_difference_percent`). -/
def pdpGe (a b : ArbitrageOpportunity) : Prop :=
  b.price_difference_percent ≤ a.price_difference_percent

instance : DecidableRel pdpGe := fun a b =>
  inferInstanceAs (Decidable (b.price_difference_percent ≤ a.price_difference_percent))

instance : IsTotal ArbitrageOpportunity pdpGe :=
  ⟨fun a b => le_total b.price_difference_percent a.price_difference_percent⟩

instance : IsTrans ArbitrageOpportunity pdpGe :=
  ⟨fun _ _ _ h1 h2 => le_trans h2 h1⟩

/-- `ArbitrageAnalyzer._is_valid_opportunity`, line by line.  The staleness
check embeds Python's `(now - t).seconds`, which is the seconds component of
the normalised timedelta, i.e. `(now - t) mod 86400`. -/
def is_valid_opportunity (cfg : Config) (now : ℤ) (buy_data sell_data : PriceData)
    (price_difference : ℚ) : Bool :=
  if buy_data.exchange = sell_data.exchange then false
  else if 300 < Int.emod (now - buy_data.timestamp) 86400 ∨
          300 < Int.emod (now - sell_data.timestamp) 86400 then false
  else if buy_data.volume_24h < cfg.MIN_VOLUME_USD * (3 / 2) ∨
          sell_data.volume_24h < cfg.MIN_VOLUME_USD * (3 / 2) then false
  else if 50 < price_difference then false
  else if buy_data.price ≤ 0 ∨ sell_data.price ≤ 0 then false
  else true

/-- `ArbitrageAnalyzer._analyze_symbol`.  Returns `none` when Python would
raise `ZeroDivisionError`: the division by `min_price_data.price` happens
before any positivity check, so a minimum price of `0` among the
volume-filtered samples propagates an exception. -/
def analyze_symbol (cfg : Config) (now : ℤ) (symbol : String)
    (prices : List PriceData) : Option (List ArbitrageOpportunity) :=
  let valid_prices := prices.filter (fun p => decide (cfg.MIN_VOLUME_USD ≤ p.volume_24h))
  if valid_prices.length < 2 then some []
  else
    match (sortByPrice valid_prices).head?, (sortByPrice valid_prices).getLast? with
    | some min_price_data, some max_price_data =>
      if min_price_data.price = 0 then none
      else
        let price_difference :=
          (max_price_data.price - min_price_data.price) / min_price_data.price * 100
        if cfg.PRICE_DIFFERENCE_THRESHOLD ≤ price_difference then
          if is_valid_opportunity cfg now min_price_data max_price_data price_difference then
            some [{ symbol := symbol
                    buy_exchange := min_price_data.exchange
                    sell_exchange := max_price_data.exchange
                    buy_price := min_price_data.price
                    sell_price := max_price_data.price
                    price_difference_percent := price_difference
                    min_volume_24h := min min_price_data.volume_24h max_price_data.volume_24h
                    timestamp := now }]
          else some []
        else some []
    | _, _ => some []

/-- Insertion-ordered key set of `defaultdict`: append a symbol on first
occurrence. -/
def insertOnce (s : String) (l : List String) : List String :=
  if s ∈ l then l else l ++ [s]

/-- The iteration order of `prices_by_symbol`: symbols in order of first
occurrence in the sample list. -/
def symbolOrder (samples : List PriceData) : List String :=
  samples.foldl (fun acc p => insertOnce p.symbol acc) []

/-- The per-symbol loop of `analyze_arbitrage_opportunities`: skip groups with
fewer than two samples, otherwise run `analyze_symbol` and concatenate; an
exception in any group propagates. -/
def analyzeGroups (cfg : Config) (now : ℤ) (samples : List PriceData) :
    List String → Option (List ArbitrageOpportunity)
  | [] => some []
  | s :: rest =>
    let group := samples.filter (fun p => decide (p.symbol = s))
    if group.length < 2 then analyzeGroups cfg now samples rest
    else
      match analyze_symbol cfg now s group with
      | none => none
      | some a =>
        match analyzeGroups cfg now samples rest with
        | none => none
        | some b => some (a ++ b)

/-- `ArbitrageAnalyzer.analyze_arbitrage_opportunities`: group, analyze each
symbol, sort descending by spread, and add the output length to
`session_stats['total_opportunities_found']`. -/
def analyze_arbitrage_opportunities (cfg : Config) (now : ℤ)
    (samples : List PriceData) (st : AnalyzerState) :
    Option (List ArbitrageOpportunity × AnalyzerState) :=
  match analyzeGroups cfg now samples (symbolOrder samples) with
  | none => none
  | some opps =>
    let sorted := opps.insertionSort pdpGe
    some (sorted,
      { st with session_stats :=
        { st.session_stats with total_opportunities_found :=
            st.session_stats.total_opportunities_found + sorted.length } })

/-- The f-string cooldown key of `NotificationManager.should_notify`. -/
def notifKey (o : ArbitrageOpportunity) : String :=
  o.symbol ++ "_" ++ o.buy_exchange ++ "_" ++ o.sell_exchange

/-- `dict.get` on the cooldown table. -/
def lookupKey : List (String × ℤ) → String → Option ℤ
  | [], _ => none
  | e :: rest, key => if e.1 = key then some e.2 else lookupKey rest key

/-- `dict` item assignment on the cooldown table: update in place, or append a
new key at the end. -/
def setKey : List (String × ℤ) → String → ℤ → List (String × ℤ)
  | [], key, v => [(key, v)]
  | e :: rest, key, v => if e.1 = key then (key, v) :: rest else e :: setKey rest key v

/-- `NotificationManager.should_notify`: accept when no entry exists or the
entry's age in minutes is at least the cooldown, stamping the entry to `now`;
otherwise reject and leave the table unchanged. -/
def should_notify (cooldown_minutes : ℤ) (now : ℤ) (st : List (String × ℤ))
    (o : ArbitrageOpportunity) : Bool × List (String × ℤ) :=
  match lookupKey st (notifKey o) with
  | none => (true, setKey st (notifKey o) now)
  | some last =>
    if (cooldown_minutes : ℚ) ≤ ((now - last : ℤ) : ℚ) / 60 then
      (true, setKey st (notifKey o) now)
    else (false, st)

/-- `NotificationManager.cleanup_old_notifications`: drop every entry whose
age in hours exceeds 4. -/
def cleanup_old_notifications (now : ℤ) (st : List (String × ℤ)) : List (String × ℤ) :=
  st.filter (fun e => decide (¬ (4 < ((now - e.2 : ℤ) : ℚ) / 3600)))

/-- The list comprehension of `filter_notifications`: run `should_notify` on
each opportunity in order, threading the table, and keep the accepted ones. -/
def filterAccum (cm now : ℤ) : List (String × ℤ) → List ArbitrageOpportunity →
    List ArbitrageOpportunity × List (String × ℤ)
  | st, [] => ([], st)
  | st, o :: os =>
    let r := should_notify cm now st o
    let rest := filterAccum cm now r.2 os
    (if r.1 then o :: rest.1 else rest.1, rest.2)

/-- `ArbitrageAnalyzer.filter_notifications`: sweep old entries, filter through
the cooldown gate, truncate to `MAX_ALERTS_PER_CYCLE`, and count the alerts
sent. -/
def filter_notifications (cfg : Config) (now : ℤ) (st : AnalyzerState)
    (opportunities : List ArbitrageOpportunity) :
    List ArbitrageOpportunity × AnalyzerState :=
  let table1 := cleanup_old_notifications now st.last_notifications
  let res := filterAccum cfg.ALERT_COOLDOWN_MINUTES now table1 opportunities
  let limited := res.1.take cfg.MAX_ALERTS_PER_CYCLE
  (limited,
   { st with
     last_notifications := res.2
     session_stats :=
       if limited.isEmpty then st.session_stats
       else { st.session_stats with alerts_sent :=
                st.session_stats.alerts_sent + limited.length } })

/-- The per-instrument sample list after the volume filter: the samples for
`sym` (in original order) whose 24h volume passes `MIN_VOLUME_USD`. -/
def filteredSamples (cfg : Config) (samples : List PriceData) (sym : String) :
    List PriceData :=
  (samples.filter (fun p => decide (p.symbol = sym))).filter
    (fun p => decide (cfg.MIN_VOLUME_USD ≤ p.volume_24h))

/-- Spec-side selector: the first sample attaining the minimum price ("ties in
min price resolve by original sample order, first wins"). -/
def specFirstMin : List PriceData → Option PriceData
  | [] => none
  | p :: ps =>
    match specFirstMin ps with
    | none => some p
    | some m => if p.price ≤ m.price then some p else some m

/-- Spec-side selector: the last sample attaining the maximum price ("ties in
max price resolve by original sample order, last wins"). -/
def specLastMax : List PriceData → Option PriceData
  | [] => none
  | p :: ps =>
    match specLastMax ps with
    | none => some p
    | some m => if p.price ≤ m.price then some m else some p

/-! Concrete fixtures for witnesses and counterexamples: the default
configuration of `simple_config.py` and small sample batches. -/

/-- Default configuration: threshold 10%, min volume 50000, 5 alerts per
cycle, 30 minutes cooldown. -/
def cfgDefault : Config := ⟨10, 50000, 5, 30⟩

/-- Default configuration but `MAX_ALERTS_PER_CYCLE = 1`. -/
def cfgMaxOne : Config := ⟨10, 50000, 1, 30⟩

/-- Fresh analyzer state: zero counters, empty cooldown table. -/
def stEmpty : AnalyzerState := ⟨⟨0, 0, 0, 0⟩, []⟩

/-- Fresh sample: BTC on ExchA at 100, high volume. -/
def sampleA : PriceData := ⟨"BTC", "ExchA", 100, 99, 101, 1000000, 199990⟩

/-- Fresh sample: BTC on ExchB at 112, high volume. -/
def sampleB : PriceData := ⟨"BTC", "ExchB", 112, 111, 113, 1000000, 199995⟩

/-- Sample observed one day plus 100 seconds before analysis time 200000. -/
def sampleOld : PriceData := ⟨"BTC", "ExchA", 100, 99, 101, 1000000, 113500⟩

/-- Sample with price exactly 0 and passing volume. -/
def sampleZero : PriceData := ⟨"BTC", "ExchA", 0, 0, 0, 1000000, 199990⟩

/-- The opportunity produced by `sampleA`/`sampleB` at time 200000. -/
def oppAB : ArbitrageOpportunity :=
  ⟨"BTC", "ExchA", "ExchB", 100, 112, 12, 1000000, 200000⟩

/-- A concrete opportunity with cooldown key `A_B_C`. -/
def oppX : ArbitrageOpportunity := ⟨"A", "B", "C", 100, 112, 12, 1000000, 0⟩

/-- A concrete opportunity with cooldown key `D_B_C`. -/
def oppY : ArbitrageOpportunity := ⟨"D", "B", "C", 100, 110, 10, 1000000, 0⟩

/-! General lemmas about the stable sort, the cooldown table, and the
analyzer, used by the claim theorems below. -/

theorem getLast?_cons_of_ne_nil {α : Type} (y : α) {t : List α} (h : t ≠ []) :
    (y :: t).getLast? = t.getLast? := by
  cases t with
  | nil => exact absurd rfl h
  | cons c cs => exact List.getLast?_cons_cons

theorem orderedInsert_ne_nil (x : PriceData) (s : List PriceData) :
    s.orderedInsert priceLe x ≠ [] := by
  intro hc
  have h := List.orderedInsert_length priceLe s x
  rw [hc] at h
  simp at h

theorem head?_orderedInsert_nil (x : PriceData) :
    (([] : List PriceData).orderedInsert priceLe x).head? = some x := rfl

theorem head?_orderedInsert_cons (x y : PriceData) (ys : List PriceData) :
    ((y :: ys).orderedInsert priceLe x).head? =
      if priceLe x y then some x else some y := by
  by_cases h : priceLe x y <;> simp [List.orderedInsert, h]

theorem head?_sortByPrice : ∀ l : List PriceData, (sortByPrice l).head? = specFirstMin l
  | [] => rfl
  | p :: ps => by
    have ih := head?_sortByPrice ps
    show (List.orderedInsert priceLe p (sortByPrice ps)).head? = specFirstMin (p :: ps)
    cases hs : sortByPrice ps with
    | nil =>
      rw [hs] at ih
      simp [specFirstMin, ← ih, head?_orderedInsert_nil]
    | cons y ys =>
      rw [hs] at ih
      rw [head?_orderedInsert_cons]
      simp only [List.head?] at ih
      simp [specFirstMin, ← ih, priceLe]

theorem sorted_head_le_getLast {y : PriceData} {ys : List PriceData}
    (hs : List.Sorted priceLe (y :: ys)) :
    ∃ z, (y :: ys).getLast? = some z ∧ priceLe y z := by
  have hne : (y :: ys) ≠ [] := List.cons_ne_nil y ys
  refine ⟨(y :: ys).getLast hne, List.getLast?_eq_getLast_of_ne_nil hne, ?_⟩
  have hmem := List.getLast_mem hne
  rcases List.mem_cons.mp hmem with h | h
  · rw [h]
    exact le_refl y.price
  · exact (List.sorted_cons.mp hs).1 _ h

theorem getLast?_orderedInsert :
    ∀ (s : List PriceData), List.Sorted priceLe s → ∀ (x : PriceData),
      (s.orderedInsert priceLe x).getLast? =
        match s.getLast? with
        | none => some x
        | some z => if priceLe x z then some z else some x
  | [], _, x => rfl
  | y :: ys, hs, x => by
    obtain ⟨hy, hs'⟩ := List.sorted_cons.mp hs
    by_cases h : priceLe x y
    · rw [List.orderedInsert_of_le _ _ h, List.getLast?_cons_cons]
      obtain ⟨z, hz, hyz⟩ := sorted_head_le_getLast hs
      rw [hz]
      have hxz : priceLe x z := le_trans h hyz
      simp [hxz]
    · have e : (y :: ys).orderedInsert priceLe x = y :: (ys.orderedInsert priceLe x) := by
        simp [List.orderedInsert, h]
      rw [e, getLast?_cons_of_ne_nil y (orderedInsert_ne_nil x ys),
        getLast?_orderedInsert ys hs' x]
      cases ys with
      | nil =>
        have hyx : priceLe y x := (total_of priceLe x y).resolve_left h
        simp [h]
      | cons w ws =>
        rw [List.getLast?_cons_cons]

theorem getLast?_sortByPrice : ∀ l : List PriceData, (sortByPrice l).getLast? = specLastMax l
  | [] => rfl
  | p :: ps => by
    have ih := getLast?_sortByPrice ps
    have hs : List.Sorted priceLe (sortByPrice ps) := List.sorted_insertionSort priceLe ps
    show (List.orderedInsert priceLe p (sortByPrice ps)).getLast? = specLastMax (p :: ps)
    rw [getLast?_orderedInsert (sortByPrice ps) hs p, ih]
    cases hm : specLastMax ps with
    | none => simp [specLastMax, hm]
    | some m => simp [specLastMax, hm, priceLe]

theorem sorted_head?_lb {s : List PriceData} (hs : List.Sorted priceLe s)
    {b : PriceData} (hb : s.head? = some b) : ∀ q ∈ s, priceLe b q := by
  cases s with
  | nil => cases hb
  | cons y ys =>
    have hy : y = b := by injection hb
    subst hy
    intro q hq
    rcases List.mem_cons.mp hq with h | h
    · rw [h]
      exact le_refl y.price
    · exact (List.sorted_cons.mp hs).1 _ h

theorem mem_of_getLast?_eq {α : Type} {l : List α} {z : α}
    (h : l.getLast? = some z) : z ∈ l := by
  obtain ⟨hne, hz⟩ := List.mem_getLast?_eq_getLast h
  rw [hz]
  exact List.getLast_mem hne

theorem sorted_getLast?_ub :
    ∀ {s : List PriceData}, List.Sorted priceLe s → ∀ {z : PriceData},
      s.getLast? = some z → ∀ q ∈ s, priceLe q z := by
  intro s
  induction s with
  | nil => intro _ z hz; cases hz
  | cons y ys ih =>
    intro hs z hz q hq
    cases ys with
    | nil =>
      have hzy : y = z := by injection hz
      rcases List.mem_cons.mp hq with h | h
      · rw [h, ← hzy]
        exact le_refl y.price
      · cases h
    | cons w ws =>
      rw [List.getLast?_cons_cons] at hz
      rcases List.mem_cons.mp hq with h | h
      · rw [h]
        exact (List.sorted_cons.mp hs).1 _ (mem_of_getLast?_eq hz)
      · exact ih (List.sorted_cons.mp hs).2 hz q h

/-! Cooldown table lemmas. -/

theorem lookupKey_setKey_self : ∀ (st : List (String × ℤ)) (key : String) (v : ℤ),
    lookupKey (setKey st key v) key = some v
  | [], key, v => by simp [setKey, lookupKey]
  | e :: rest, key, v => by
    by_cases h : e.1 = key
    · simp [setKey, h, lookupKey]
    · simp [setKey, h, lookupKey, lookupKey_setKey_self rest key v]

theorem lookupKey_setKey_ne : ∀ (st : List (String × ℤ)) (key : String) (v : ℤ)
    (key' : String), key' ≠ key → lookupKey (setKey st key v) key' = lookupKey st key'
  | [], key, v, key', h => by simp [setKey, lookupKey, Ne.symm h]
  | e :: rest, key, v, key', h => by
    by_cases he : e.1 = key
    · simp [setKey, he, lookupKey, Ne.symm h]
    · simp [setKey, he, lookupKey, lookupKey_setKey_ne rest key v key' h]

theorem mem_of_lookupKey : ∀ {st : List (String × ℤ)} {key : String} {t : ℤ},
    lookupKey st key = some t → (key, t) ∈ st := by
  intro st
  induction st with
  | nil => intro key t h; cases h
  | cons e rest ih =>
    intro key t h
    by_cases he : e.1 = key
    · simp only [lookupKey, if_pos he] at h
      have h2 : e.2 = t := by injection h
      have he' : e = (key, t) := by rw [← he, ← h2]
      rw [← he']
      exact List.mem_cons_self e rest
    · simp only [lookupKey, if_neg he] at h
      exact List.mem_cons_of_mem e (ih h)

theorem should_notify_cases (cm now : ℤ) (st : List (String × ℤ))
    (o : ArbitrageOpportunity) :
    should_notify cm now st o = (false, st) ∨
    should_notify cm now st o = (true, setKey st (notifKey o) now) := by
  unfold should_notify
  cases lookupKey st (notifKey o) with
  | none => right; rfl
  | some last =>
    dsimp only
    by_cases h : (cm : ℚ) ≤ ((now - last : ℤ) : ℚ) / 60
    · right; rw [if_pos h]
    · left; rw [if_neg h]

theorem filterAccum_nil (cm now : ℤ) (st : List (String × ℤ)) :
    filterAccum cm now st [] = ([], st) := rfl

theorem filterAccum_cons (cm now : ℤ) (st : List (String × ℤ))
    (o : ArbitrageOpportunity) (os : List ArbitrageOpportunity) :
    filterAccum cm now st (o :: os) =
      ((if (should_notify cm now st o).1
          then o :: (filterAccum cm now (should_notify cm now st o).2 os).1
          else (filterAccum cm now (should_notify cm now st o).2 os).1),
       (filterAccum cm now (should_notify cm now st o).2 os).2) := rfl

theorem filterAccum_sublist (cm now : ℤ) :
    ∀ (st : List (String × ℤ)) (opps : List ArbitrageOpportunity),
      (filterAccum cm now st opps).1.Sublist opps
  | _, [] => List.Sublist.refl []
  | st, o :: os => by
    rw [filterAccum_cons]
    by_cases h : (should_notify cm now st o).1
    · simpa [h] using (filterAccum_sublist cm now (should_notify cm now st o).2 os).cons₂ o
    · simpa [h] using (filterAccum_sublist cm now (should_notify cm now st o).2 os).cons o

theorem filterAccum_frame (cm now : ℤ) :
    ∀ (st : List (String × ℤ)) (opps : List ArbitrageOpportunity) (key : String),
      lookupKey (filterAccum cm now st opps).2 key ≠ lookupKey st key →
      ∃ o, o ∈ (filterAccum cm now st opps).1 ∧ notifKey o = key
  | _, [], _ => fun h => absurd rfl h
  | st, o :: os, key => fun h => by
    rcases should_notify_cases cm now st o with hc | hc
    · simp only [filterAccum_cons, hc] at h ⊢
      exact filterAccum_frame cm now st os key h
    · simp only [filterAccum_cons, hc] at h ⊢
      by_cases hk : key = notifKey o
      · exact ⟨o, List.mem_cons_self o _, hk.symm⟩
      · have hset := lookupKey_setKey_ne st (notifKey o) now key hk
        have h2 : lookupKey (filterAccum cm now (setKey st (notifKey o) now) os).2 key ≠
            lookupKey (setKey st (notifKey o) now) key := by
          rw [hset]
          exact h
        obtain ⟨o', ho', hko'⟩ := filterAccum_frame cm now (setKey st (notifKey o) now) os key h2
        exact ⟨o', List.mem_cons_of_mem o ho', hko'⟩

theorem is_valid_spec {cfg : Config} {now : ℤ} {b m : PriceData} {pdp : ℚ}
    (h : is_valid_opportunity cfg now b m pdp = true) :
    b.exchange ≠ m.exchange ∧
    Int.emod (now - b.timestamp) 86400 ≤ 300 ∧
    Int.emod (now - m.timestamp) 86400 ≤ 300 ∧
    cfg.MIN_VOLUME_USD * (3 / 2) ≤ b.volume_24h ∧
    cfg.MIN_VOLUME_USD * (3 / 2) ≤ m.volume_24h ∧
    pdp ≤ 50 ∧ 0 < b.price ∧ 0 < m.price := by
  unfold is_valid_opportunity at h
  split_ifs at h with h1 h2 h3 h4 h5
  push_neg at h2 h3 h4 h5
  exact ⟨h1, h2.1, h2.2, h3.1, h3.2, h4, h5.1, h5.2⟩

theorem lookupKey_cleanup {now : ℤ} {st : List (String × ℤ)} {key : String} {t : ℤ}
    (h : lookupKey (cleanup_old_notifications now st) key = some t) :
    ((now - t : ℤ) : ℚ) / 3600 ≤ 4 := by
  have hmem := mem_of_lookupKey h
  unfold cleanup_old_notifications at hmem
  have := (List.mem_filter.mp hmem).2
  simp only [decide_eq_true_eq] at this
  exact le_of_not_lt this

theorem cleanup_removes {now : ℤ} {st : List (String × ℤ)} {e : String × ℤ}
    (he : 4 < ((now - e.2 : ℤ) : ℚ) / 3600) :
    e ∉ cleanup_old_notifications now st := by
  intro hmem
  unfold cleanup_old_notifications at hmem
  have := (List.mem_filter.mp hmem).2
  simp only [decide_eq_true_eq] at this
  exact this he

theorem analyze_symbol_inv {cfg : Config} {now : ℤ} {s : String}
    {prices : List PriceData} {os : List ArbitrageOpportunity}
    {o : ArbitrageOpportunity}
    (h : analyze_symbol cfg now s prices = some os) (ho : o ∈ os) :
    ∃ b m,
      (sortByPrice (prices.filter
          (fun p => decide (cfg.MIN_VOLUME_USD ≤ p.volume_24h)))).head? = some b ∧
      (sortByPrice (prices.filter
          (fun p => decide (cfg.MIN_VOLUME_USD ≤ p.volume_24h)))).getLast? = some m ∧
      b.price ≠ 0 ∧
      o = ⟨s, b.exchange, m.exchange, b.price, m.price,
           (m.price - b.price) / b.price * 100, min b.volume_24h m.volume_24h, now⟩ ∧
      cfg.PRICE_DIFFERENCE_THRESHOLD ≤ (m.price - b.price) / b.price * 100 ∧
      is_valid_opportunity cfg now b m ((m.price - b.price) / b.price * 100) = true := by
  simp only [analyze_symbol] at h
  split at h
  · cases h
    cases ho
  · split at h
    · rename_i b m hb hm
      split at h
      · cases h
      · split at h
        · split at h
          · cases h
            rcases List.mem_singleton.mp ho with rfl
            rename_i hz hth hv
            exact ⟨b, m, hb, hm, hz, rfl, hth, hv⟩
          · cases h
            cases ho
        · cases h
          cases ho
    · cases h
      cases ho

theorem analyze_symbol_symbol {cfg : Config} {now : ℤ} {s : String}
    {prices : List PriceData} {os : List ArbitrageOpportunity}
    {o : ArbitrageOpportunity}
    (h : analyze_symbol cfg now s prices = some os) (ho : o ∈ os) :
    o.symbol = s := by
  obtain ⟨b, m, _, _, _, rfl, _, _⟩ := analyze_symbol_inv h ho
  rfl

theorem mem_analyzeGroups {cfg : Config} {now : ℤ} {samples : List PriceData} :
    ∀ {syms : List String} {L : List ArbitrageOpportunity} {o : ArbitrageOpportunity},
      analyzeGroups cfg now samples syms = some L → o ∈ L →
      ∃ os, analyze_symbol cfg now o.symbol
              (samples.filter (fun p => decide (p.symbol = o.symbol))) = some os ∧
            o ∈ os := by
  intro syms
  induction syms with
  | nil =>
    intro L o h ho
    cases h
    cases ho
  | cons s rest ih =>
    intro L o h ho
    simp only [analyzeGroups] at h
    split at h
    · exact ih h ho
    · split at h
      · cases h
      · rename_i a ha
        split at h
        · cases h
        · rename_i b hb
          cases h
          rcases List.mem_append.mp ho with hoa | hob
          · have hsym := analyze_symbol_symbol ha hoa
            subst hsym
            exact ⟨a, ha, hoa⟩
          · exact ih hb hob

theorem analyze_inv {cfg : Config} {now : ℤ} {samples : List PriceData}
    {st : AnalyzerState} {l : List ArbitrageOpportunity} {st' : AnalyzerState}
    (h : analyze_arbitrage_opportunities cfg now samples st = some (l, st')) :
    ∃ opps, analyzeGroups cfg now samples (symbolOrder samples) = some opps ∧
      l = opps.insertionSort pdpGe ∧
      st' = { st with session_stats :=
        { st.session_stats with total_opportunities_found :=
            st.session_stats.total_opportunities_found + l.length } } := by
  simp only [analyze_arbitrage_opportunities] at h
  split at h
  · cases h
  · rename_i opps hopps
    cases h
    exact ⟨opps, hopps, rfl, rfl⟩

theorem mem_analyze {cfg : Config} {now : ℤ} {samples : List PriceData}
    {st : AnalyzerState} {l : List ArbitrageOpportunity} {st' : AnalyzerState}
    {o : ArbitrageOpportunity}
    (h : analyze_arbitrage_opportunities cfg now samples st = some (l, st'))
    (ho : o ∈ l) :
    ∃ os, analyze_symbol cfg now o.symbol
            (samples.filter (fun p => decide (p.symbol = o.symbol))) = some os ∧
          o ∈ os := by
  obtain ⟨opps, hopps, hl, _⟩ := analyze_inv h
  have hmem : o ∈ opps := (List.perm_insertionSort pdpGe opps).mem_iff.mp (hl ▸ ho)
  exact mem_analyzeGroups hopps hmem

/-- Evaluation of the analyzer on the fresh two-sample BTC batch: one
opportunity with a 12% spread, statistics counter incremented to 1. -/
theorem analyzeAB_eval :
    analyze_arbitrage_opportunities cfgDefault 200000 [sampleA, sampleB] stEmpty =
      some ([oppAB], ⟨⟨0, 1, 0, 0⟩, []⟩) := by
  norm_num [analyze_arbitrage_opportunities, analyzeGroups, symbolOrder, insertOnce,
    analyze_symbol, sortByPrice, is_valid_opportunity, cfgDefault, sampleA, sampleB,
    stEmpty, oppAB, List.insertionSort, List.orderedInsert, priceLe, min_def]
  decide

/-! Claim theorems. -/

/-- C1: every opportunity emitted by `analyze_arbitrage_opportunities` takes
its buy side from the first sample attaining the minimum price and its sell
side from the last sample attaining the maximum price among that instrument's
volume-filtered samples, so `buy_price` is the minimum price, `sell_price` the
maximum, and ties resolve by original sample order. -/
theorem C1_buy_min_sell_max {cfg : Config} {now : ℤ} {samples : List PriceData}
    {st : AnalyzerState} {l : List ArbitrageOpportunity} {st' : AnalyzerState}
    {o : ArbitrageOpportunity}
    (h : analyze_arbitrage_opportunities cfg now samples st = some (l, st'))
    (ho : o ∈ l) :
    ∃ b m, specFirstMin (filteredSamples cfg samples o.symbol) = some b ∧
      specLastMax (filteredSamples cfg samples o.symbol) = some m ∧
      o.buy_price = b.price ∧ o.buy_exchange = b.exchange ∧
      o.sell_price = m.price ∧ o.sell_exchange = m.exchange ∧
      ∀ q ∈ filteredSamples cfg samples o.symbol,
        b.price ≤ q.price ∧ q.price ≤ m.price := by
  obtain ⟨os, hos, hoos⟩ := mem_analyze h ho
  obtain ⟨b, m, hb, hm, _, heq, _, _⟩ := analyze_symbol_inv hos hoos
  have hsorted : List.Sorted priceLe
      (sortByPrice (filteredSamples cfg samples o.symbol)) :=
    List.sorted_insertionSort priceLe _
  refine ⟨b, m, ?_, ?_, ?_, ?_, ?_, ?_, ?_⟩
  · rw [← head?_sortByPrice]
    exact hb
  · rw [← getLast?_sortByPrice]
    exact hm
  · rw [heq]
  · rw [heq]
  · rw [heq]
  · rw [heq]
  · intro q hq
    have hq' : q ∈ sortByPrice (filteredSamples cfg samples o.symbol) :=
      (List.perm_insertionSort priceLe _).mem_iff.mpr hq
    exact ⟨sorted_head?_lb hsorted hb q hq', sorted_getLast?_ub hsorted hm q hq'⟩

/-- C1 witness: the two-sample BTC batch produces an opportunity satisfying the
min/max property. -/
theorem C1_witness :
    ∃ b m, specFirstMin (filteredSamples cfgDefault [sampleA, sampleB] oppAB.symbol) = some b ∧
      specLastMax (filteredSamples cfgDefault [sampleA, sampleB] oppAB.symbol) = some m ∧
      oppAB.buy_price = b.price ∧ oppAB.buy_exchange = b.exchange ∧
      oppAB.sell_price = m.price ∧ oppAB.sell_exchange = m.exchange ∧
      ∀ q ∈ filteredSamples cfgDefault [sampleA, sampleB] oppAB.symbol,
        b.price ≤ q.price ∧ q.price ≤ m.price :=
  C1_buy_min_sell_max analyzeAB_eval (show oppAB ∈ [oppAB] by decide)

/-- C2: a key stamped at time `T` is rejected by `should_notify` at any time
strictly between `T` and `T + cooldown_minutes` (in seconds, `T + cm * 60`)
and accepted at or after `T + cooldown_minutes`, re-stamping the entry to the
acceptance time. -/
theorem C2_cooldown_window (cm T t : ℤ) (st : List (String × ℤ))
    (o : ArbitrageOpportunity) (hT : lookupKey st (notifKey o) = some T) :
    (T < t → t < T + cm * 60 → should_notify cm t st o = (false, st)) ∧
    (T + cm * 60 ≤ t →
      (should_notify cm t st o).1 = true ∧
      lookupKey (should_notify cm t st o).2 (notifKey o) = some t) := by
  unfold should_notify
  rw [hT]
  dsimp only
  constructor
  · intro _ h2
    have hlt : ((t - T : ℤ) : ℚ) / 60 < (cm : ℚ) := by
      rw [div_lt_iff₀ (by norm_num : (0 : ℚ) < 60)]
      have h2' : ((t - T : ℤ) : ℚ) < ((cm * 60 : ℤ) : ℚ) :=
        Int.cast_lt.mpr (by omega)
      push_cast at h2' ⊢
      linarith
    rw [if_neg (not_le.mpr hlt)]
  · intro hge
    have hc : (cm : ℚ) ≤ ((t - T : ℤ) : ℚ) / 60 := by
      rw [le_div_iff₀ (by norm_num : (0 : ℚ) < 60)]
      have h2' : ((cm * 60 : ℤ) : ℚ) ≤ ((t - T : ℤ) : ℚ) :=
        Int.cast_le.mpr (by omega)
      push_cast at h2' ⊢
      linarith
    rw [if_pos hc]
    exact ⟨rfl, lookupKey_setKey_self st (notifKey o) t⟩

/-- C2 witness: with a 30-minute cooldown and a key stamped at 0, time 100 is
rejected and time 1800 is accepted and re-stamped. -/
theorem C2_witness :
    should_notify 30 100 [("A_B_C", 0)] oppX = (false, [("A_B_C", 0)]) ∧
    (should_notify 30 1800 [("A_B_C", 0)] oppX).1 = true ∧
    lookupKey (should_notify 30 1800 [("A_B_C", 0)] oppX).2 (notifKey oppX) = some 1800 :=
  ⟨(C2_cooldown_window 30 0 100 [("A_B_C", 0)] oppX (by decide)).1 (by decide) (by decide),
   ((C2_cooldown_window 30 0 1800 [("A_B_C", 0)] oppX (by decide)).2 (by decide)).1,
   ((C2_cooldown_window 30 0 1800 [("A_B_C", 0)] oppX (by decide)).2 (by decide)).2⟩

/-- C3: the staleness guard uses Python's `timedelta.seconds`, the day-modulo
component, so a sample observed one day plus 100 seconds before analysis time
passes the "not older than 300 seconds" check and an opportunity is emitted:
the claim that any sample older than 300 seconds (including by days) is
skipped contradicts the code. -/
theorem C3_stale_sample_emitted :
    300 < (200000 : ℤ) - sampleOld.timestamp ∧
    analyze_arbitrage_opportunities cfgDefault 200000 [sampleOld, sampleB] stEmpty =
      some ([oppAB], ⟨⟨0, 1, 0, 0⟩, []⟩) := by
  constructor
  · decide
  · norm_num [analyze_arbitrage_opportunities, analyzeGroups, symbolOrder, insertOnce,
      analyze_symbol, sortByPrice, is_valid_opportunity, cfgDefault, sampleOld, sampleB,
      stEmpty, oppAB, List.insertionSort, List.orderedInsert, priceLe, min_def]
    decide

/-- C4: a zero minimum price among volume-passing samples propagates an
exception (`ZeroDivisionError` in the spread computation, `none` in the
model) instead of being a silent exclusion. -/
theorem C4_zero_price_raises :
    cfgDefault.MIN_VOLUME_USD ≤ sampleZero.volume_24h ∧
    analyze_arbitrage_opportunities cfgDefault 200000 [sampleZero, sampleB] stEmpty =
      none := by
  constructor
  · norm_num [cfgDefault, sampleZero]
  · decide

/-- C5: every opportunity returned by `analyze_arbitrage_opportunities` has
distinct buy/sell exchanges, its spread equals
`(sell_price - buy_price) / buy_price * 100`, and the spread lies in
`[0, 50]`. -/
theorem C5_output_invariants {cfg : Config} {now : ℤ} {samples : List PriceData}
    {st : AnalyzerState} {l : List ArbitrageOpportunity} {st' : AnalyzerState}
    {o : ArbitrageOpportunity}
    (h : analyze_arbitrage_opportunities cfg now samples st = some (l, st'))
    (ho : o ∈ l) :
    o.buy_exchange ≠ o.sell_exchange ∧
    o.price_difference_percent = (o.sell_price - o.buy_price) / o.buy_price * 100 ∧
    0 ≤ o.price_difference_percent ∧ o.price_difference_percent ≤ 50 := by
  obtain ⟨os, hos, hoos⟩ := mem_analyze h ho
  obtain ⟨b, m, hb, hm, _, heq, _, hv⟩ := analyze_symbol_inv hos hoos
  obtain ⟨hex, _, _, _, _, h50, hbpos, _⟩ := is_valid_spec hv
  have hsorted : List.Sorted priceLe
      (sortByPrice (filteredSamples cfg samples o.symbol)) :=
    List.sorted_insertionSort priceLe _
  have hbm : b.price ≤ m.price :=
    sorted_head?_lb hsorted hb m (mem_of_getLast?_eq hm)
  have hpdp : 0 ≤ (m.price - b.price) / b.price * 100 :=
    mul_nonneg (div_nonneg (sub_nonneg.mpr hbm) hbpos.le) (by norm_num)
  refine ⟨?_, ?_, ?_, ?_⟩
  · rw [heq]
    exact hex
  · rw [heq]
  · rw [heq]
    exact hpdp
  · rw [heq]
    exact h50

/-- C5 witness: the concrete opportunity from the two-sample BTC batch
satisfies the invariants. -/
theorem C5_witness :
    oppAB.buy_exchange ≠ oppAB.sell_exchange ∧
    oppAB.price_difference_percent =
      (oppAB.sell_price - oppAB.buy_price) / oppAB.buy_price * 100 ∧
    0 ≤ oppAB.price_difference_percent ∧ oppAB.price_difference_percent ≤ 50 :=
  C5_output_invariants analyzeAB_eval (show oppAB ∈ [oppAB] by decide)

/-- C6: the analyzer's output is sorted by descending
`price_difference_percent`, and `filter_notifications` returns the cooldown
survivors truncated to the first `MAX_ALERTS_PER_CYCLE`, a subsequence of its
input, so descending order is preserved. -/
theorem C6_order_preserved (cfg : Config) (now : ℤ) :
    (∀ samples st l st',
       analyze_arbitrage_opportunities cfg now samples st = some (l, st') →
       List.Pairwise pdpGe l) ∧
    (∀ st opps,
       (filter_notifications cfg now st opps).1 =
         (filterAccum cfg.ALERT_COOLDOWN_MINUTES now
            (cleanup_old_notifications now st.last_notifications) opps).1.take
           cfg.MAX_ALERTS_PER_CYCLE ∧
       (filter_notifications cfg now st opps).1.Sublist opps ∧
       (List.Pairwise pdpGe opps →
         List.Pairwise pdpGe (filter_notifications cfg now st opps).1)) := by
  constructor
  · intro samples st l st' h
    obtain ⟨opps, _, rfl, _⟩ := analyze_inv h
    exact List.sorted_insertionSort pdpGe opps
  · intro st opps
    have hsub : (filter_notifications cfg now st opps).1.Sublist opps :=
      (List.take_sublist cfg.MAX_ALERTS_PER_CYCLE _).trans
        (filterAccum_sublist cfg.ALERT_COOLDOWN_MINUTES now
          (cleanup_old_notifications now st.last_notifications) opps)
    exact ⟨rfl, hsub, fun hp => List.Pairwise.sublist hsub hp⟩

/-- C6 witness: concrete instances of both conjuncts. -/
theorem C6_witness :
    List.Pairwise pdpGe [oppAB] ∧
    (filter_notifications cfgDefault 0 stEmpty [oppX, oppY]).1.Sublist [oppX, oppY] :=
  ⟨(C6_order_preserved cfgDefault 200000).1 [sampleA, sampleB] stEmpty [oppAB]
      ⟨⟨0, 1, 0, 0⟩, []⟩ analyzeAB_eval,
   ((C6_order_preserved cfgDefault 0).2 stEmpty [oppX, oppY]).2.1⟩

/-- C7 counterexample: with `MAX_ALERTS_PER_CYCLE = 1` and two fresh-keyed
opportunities, the second is not in the returned list yet its key is stamped
into the cooldown table, refuting "the table changes only for keys of
opportunities in the returned list". -/
theorem C7_counterexample :
    oppY ∉ (filter_notifications cfgMaxOne 0 stEmpty [oppX, oppY]).1 ∧
    lookupKey (filter_notifications cfgMaxOne 0 stEmpty [oppX, oppY]).2.last_notifications
        (notifKey oppY) ≠
      lookupKey (cleanup_old_notifications 0 stEmpty.last_notifications)
        (notifKey oppY) := by decide

/-- C7 (amended): during `filter_notifications`, beyond the eviction sweep the
cooldown table changes only at keys of opportunities accepted by the cooldown
check (the pre-truncation survivors). -/
theorem C7_only_accepted_keys_stamped (cfg : Config) (now : ℤ) (st : AnalyzerState)
    (opps : List ArbitrageOpportunity) (key : String)
    (h : lookupKey (filter_notifications cfg now st opps).2.last_notifications key ≠
         lookupKey (cleanup_old_notifications now st.last_notifications) key) :
    ∃ o, o ∈ (filterAccum cfg.ALERT_COOLDOWN_MINUTES now
        (cleanup_old_notifications now st.last_notifications) opps).1 ∧
      notifKey o = key :=
  filterAccum_frame cfg.ALERT_COOLDOWN_MINUTES now
    (cleanup_old_notifications now st.last_notifications) opps key h

/-- C7 witness: the stamped-but-truncated key of `oppY` belongs to a
cooldown-accepted opportunity. -/
theorem C7_witness :
    ∃ o, o ∈ (filterAccum cfgMaxOne.ALERT_COOLDOWN_MINUTES 0
        (cleanup_old_notifications 0 stEmpty.last_notifications) [oppX, oppY]).1 ∧
      notifKey o = notifKey oppY :=
  C7_only_accepted_keys_stamped cfgMaxOne 0 stEmpty [oppX, oppY] (notifKey oppY)
    (by decide)

/-- C8 counterexample: `analyze_arbitrage_opportunities` itself increments
`session_stats['total_opportunities_found']` (from 0 to 1 on the two-sample
batch), refuting "leaves the session statistics counters unchanged". -/
theorem C8_counterexample :
    (analyze_arbitrage_opportunities cfgDefault 200000 [sampleA, sampleB] stEmpty).map
        (fun r => r.2.session_stats.total_opportunities_found) = some 1 ∧
    stEmpty.session_stats.total_opportunities_found = 0 := by
  rw [analyzeAB_eval]
  decide

/-- C8 (amended): `analyze_arbitrage_opportunities` leaves the cooldown table
and every other statistics field unchanged, but adds the number of returned
opportunities to `total_opportunities_found`. -/
theorem C8_analyze_frame {cfg : Config} {now : ℤ} {samples : List PriceData}
    {st : AnalyzerState} {l : List ArbitrageOpportunity} {st' : AnalyzerState}
    (h : analyze_arbitrage_opportunities cfg now samples st = some (l, st')) :
    st'.last_notifications = st.last_notifications ∧
    st'.session_stats.cycles_completed = st.session_stats.cycles_completed ∧
    st'.session_stats.alerts_sent = st.session_stats.alerts_sent ∧
    st'.session_stats.start_time = st.session_stats.start_time ∧
    st'.session_stats.total_opportunities_found =
      st.session_stats.total_opportunities_found + l.length := by
  obtain ⟨opps, _, _, rfl⟩ := analyze_inv h
  exact ⟨rfl, rfl, rfl, rfl, rfl⟩

/-- C8 witness: concrete instance of the frame property. -/
theorem C8_witness :
    (⟨⟨0, 1, 0, 0⟩, []⟩ : AnalyzerState).last_notifications = stEmpty.last_notifications ∧
    (⟨⟨0, 1, 0, 0⟩, []⟩ : AnalyzerState).session_stats.total_opportunities_found =
      stEmpty.session_stats.total_opportunities_found + [oppAB].length :=
  ⟨(C8_analyze_frame analyzeAB_eval).1, (C8_analyze_frame analyzeAB_eval).2.2.2.2⟩

/-- C9: `filter_notifications` runs its cooldown lookups on the swept table;
the sweep removes every entry strictly older than 4 hours, so every entry the
gate can see is at most 4 hours old. -/
theorem C9_sweep_bound (cfg : Config) (now : ℤ) (st : AnalyzerState)
    (opps : List ArbitrageOpportunity) :
    (filter_notifications cfg now st opps).2.last_notifications =
      (filterAccum cfg.ALERT_COOLDOWN_MINUTES now
        (cleanup_old_notifications now st.last_notifications) opps).2 ∧
    (∀ key t,
       lookupKey (cleanup_old_notifications now st.last_notifications) key = some t →
       ((now - t : ℤ) : ℚ) / 3600 ≤ 4) ∧
    (∀ e ∈ st.last_notifications, 4 < ((now - e.2 : ℤ) : ℚ) / 3600 →
       e ∉ cleanup_old_notifications now st.last_notifications) :=
  ⟨rfl, fun _ _ h => lookupKey_cleanup h, fun _ _ he => cleanup_removes he⟩

/-- C9 witness: at time 20000 a fresh entry survives the sweep within the
4-hour bound and a 20000-second-old entry is removed. -/
theorem C9_witness :
    ((20000 - 19000 : ℤ) : ℚ) / 3600 ≤ 4 ∧
    ("k", (0 : ℤ)) ∉ cleanup_old_notifications 20000 [("k", 0), ("f", 19000)] :=
  ⟨(C9_sweep_bound cfgDefault 20000 ⟨⟨0, 0, 0, 0⟩, [("k", 0), ("f", 19000)]⟩ []).2.1
      "f" 19000 (by norm_num [cleanup_old_notifications, lookupKey]),
   (C9_sweep_bound cfgDefault 20000 ⟨⟨0, 0, 0, 0⟩, [("k", 0), ("f", 19000)]⟩ []).2.2
      ("k", 0) (by decide) (by norm_num)⟩

/-- C10: every emitted opportunity's `min_volume_24h` is the minimum of the
buy and sell samples' 24h volumes, and is at least `1.5 × MIN_VOLUME_USD`
because both samples passed the liquidity-margin check. -/
theorem C10_min_volume {cfg : Config} {now : ℤ} {samples : List PriceData}
    {st : AnalyzerState} {l : List ArbitrageOpportunity} {st' : AnalyzerState}
    {o : ArbitrageOpportunity}
    (h : analyze_arbitrage_opportunities cfg now samples st = some (l, st'))
    (ho : o ∈ l) :
    ∃ b m, specFirstMin (filteredSamples cfg samples o.symbol) = some b ∧
      specLastMax (filteredSamples cfg samples o.symbol) = some m ∧
      o.min_volume_24h = min b.volume_24h m.volume_24h ∧
      cfg.MIN_VOLUME_USD * (3 / 2) ≤ o.min_volume_24h := by
  obtain ⟨os, hos, hoos⟩ := mem_analyze h ho
  obtain ⟨b, m, hb, hm, _, heq, _, hv⟩ := analyze_symbol_inv hos hoos
  obtain ⟨_, _, _, hbv, hmv, _, _, _⟩ := is_valid_spec hv
  refine ⟨b, m, ?_, ?_, ?_, ?_⟩
  · rw [← head?_sortByPrice]
    exact hb
  · rw [← getLast?_sortByPrice]
    exact hm
  · rw [heq]
  · rw [heq]
    exact le_min hbv hmv

/-- C10 witness: concrete instance on the two-sample BTC batch. -/
theorem C10_witness :
    ∃ b m, specFirstMin (filteredSamples cfgDefault [sampleA, sampleB] oppAB.symbol) = some b ∧
      specLastMax (filteredSamples cfgDefault [sampleA, sampleB] oppAB.symbol) = some m ∧
      oppAB.min_volume_24h = min b.volume_24h m.volume_24h ∧
      cfgDefault.MIN_VOLUME_USD * (3 / 2) ≤ oppAB.min_volume_24h :=
  C10_min_volume analyzeAB_eval (show oppAB ∈ [oppAB] by decide)

end ArbAnalyzer
